import Mathlib

/-!
Verification of the Anthem A/V protocol session engine (uc-intg-anthemav).

This file is a shallow embedding of the protocol-handling core of the
repository: the message parser (`parser.py`), the client state cache and
its response handler (`client.py`), the device state cache, its response
handler and its event emission (`device.py`, main-branch side of the
merged file), the wire framers of both components, the command encoder,
the connect/disconnect lifecycle, and the volume percentage conversions
(`media_player.py`).  Python strings are modelled as `List Char`, byte
buffers as `List Nat`, dictionaries as insertion-ordered association
lists, and floating point volume arithmetic as rational arithmetic
(exact at every value the theorems touch).  Regular-expression matching
is modelled by explicit scanning functions that mirror the anchoring,
greediness and backtracking of the concrete patterns used in the source.
-/

set_option autoImplicit false

namespace AnthemAV

/-- Python strings are modelled as lists of characters. -/
abbrev Str := List Char

/-- Shorthand turning a Lean string literal into the `List Char` model. -/
def str (s : String) : Str := s.toList

/-- Numeric value of a run of decimal digit characters (most significant first). -/
def digitsVal (ds : Str) : Nat := ds.foldl (fun n c => n * 10 + (c.toNat - 48)) 0

/-- Model of an anchored regex digits group: the greedy run of leading decimal
digits of `l` together with the rest, requiring at least one digit. -/
def parseDigits (l : Str) : Option (Nat × Str) :=
  let ds := l.takeWhile Char.isDigit
  if ds.isEmpty then none else some (digitsVal ds, l.dropWhile Char.isDigit)

/-- Model of a regex group matching an optionally minus-signed digit run at the
start of `l`, as produced by the pattern `-?` followed by one or more digits. -/
def parseSignedInt (l : Str) : Option Int :=
  match l with
  | '-' :: rest => (parseDigits rest).map (fun p => -(p.1 : Int))
  | _ => (parseDigits l).map (fun p => (p.1 : Int))

/-- Model of the Python substring test `needle in hay`. -/
def hasSub (needle hay : Str) : Bool := hay.tails.any (fun t => needle.isPrefixOf t)

/-- Model of `re.search` for a pattern `TAG(-?\d+)`: scan left to right for an
occurrence of `tag` that is immediately followed by a signed digit run, exactly
as the backtracking regex engine does. -/
def searchIntAfter (tag : Str) : Str → Option Int
  | [] => none
  | c :: rest =>
    match parseSignedInt ((c :: rest).drop tag.length) with
    | some v => if tag.isPrefixOf (c :: rest) then some v else searchIntAfter tag rest
    | none => searchIntAfter tag rest

/-- Model of `re.search` for a pattern `TAG(\d+)`: scan left to right for an
occurrence of `tag` immediately followed by an unsigned digit run. -/
def searchNatAfter (tag : Str) : Str → Option Nat
  | [] => none
  | c :: rest =>
    match parseDigits ((c :: rest).drop tag.length) with
    | some p => if tag.isPrefixOf (c :: rest) then some p.1 else searchNatAfter tag rest
    | none => searchNatAfter tag rest

/-- Model of `re.search` for a pattern `TAG(.+)`: scan left to right for an
occurrence of `tag` followed by at least one further character, returning the
rest of the line.  Response lines never contain the newline character that the
regex dot excludes, so the dot is modelled as matching any character. -/
def searchRestAfter (tag : Str) : Str → Option Str
  | [] => none
  | c :: rest =>
    if tag.isPrefixOf (c :: rest) && !((c :: rest).drop tag.length).isEmpty then
      some ((c :: rest).drop tag.length)
    else searchRestAfter tag rest

/-- Model of `re.search` for a quoted-group pattern: `tag` followed by a double
quote, a possibly empty run of non-quote characters, and a closing quote. -/
def searchQuoted (tag : Str) : Str → Option Str
  | [] => none
  | c :: rest =>
    if tag.isPrefixOf (c :: rest) then
      match (c :: rest).drop tag.length with
      | '"' :: r2 =>
        match r2.dropWhile (fun ch => ch != '"') with
        | '"' :: _ => some (r2.takeWhile (fun ch => ch != '"'))
        | _ => searchQuoted tag rest
      | _ => searchQuoted tag rest
    else searchQuoted tag rest

/-- Characters removed by Python `str.strip()` on ASCII input. -/
def isSpaceC (c : Char) : Bool :=
  c == ' ' || c == '\t' || c == '\n' || c == '\r' || c == Char.ofNat 11 || c == Char.ofNat 12

/-- Model of Python `str.strip()`: drop whitespace from both ends. -/
def pyStrip (l : Str) : Str :=
  ((l.dropWhile isSpaceC).reverse.dropWhile isSpaceC).reverse

/-- Decimal digit character for a digit value below ten. -/
def digitChar (d : Nat) : Char := Char.ofNat (48 + d)

/-- Decimal rendering of a natural number (fuel-driven so that the kernel can
evaluate it); mirrors Python `str` on a non-negative int. -/
def natToCharsAux : Nat → Nat → Str
  | 0, _ => []
  | fuel + 1, n =>
    if n < 10 then [digitChar n]
    else natToCharsAux fuel (n / 10) ++ [digitChar (n % 10)]

/-- Decimal rendering of a natural number, mirroring Python `str`. -/
def natToChars (n : Nat) : Str := natToCharsAux (n + 1) n

/-- Decimal rendering of an integer, mirroring Python `str` on an int. -/
def intToChars (v : Int) : Str :=
  if v < 0 then '-' :: natToChars v.natAbs else natToChars v.toNat

/-- Insertion-ordered dictionary update, mirroring Python `dict` assignment:
an existing key keeps its position, a fresh key is appended at the end. -/
def upsert {α β : Type} [DecidableEq α] (k : α) (v : β) : List (α × β) → List (α × β)
  | [] => [(k, v)]
  | (k2, v2) :: rest => if k = k2 then (k, v) :: rest else (k2, v2) :: upsert k v rest

/-- Dictionary lookup on the association-list model of a Python `dict`. -/
def alookup {α β : Type} [DecidableEq α] (k : α) : List (α × β) → Option β
  | [] => none
  | (k2, v) :: rest => if k = k2 then some v else alookup k rest

/-! ## Message parser (`parser.py`)

`ParsedMessage` mirrors the dataclass hierarchy of `models.py`; `parse_message`
mirrors `parser.parse_message` branch for branch, with each `re.match` /
`re.search` call modelled by an explicit matcher of the same grammar. -/

/-- Typed parse results, one constructor per dataclass of `models.py`. -/
inductive ParsedMessage where
  | systemModel (model : Str)
  | inputCount (count : Nat)
  | inputName (input_number : Nat) (name : Str)
  | zonePower (zone : Nat) (is_on : Bool)
  | zoneVolume (zone : Nat) (volume_db : Int)
  | zoneMute (zone : Nat) (is_muted : Bool)
  | zoneInput (zone : Nat) (input_number : Nat)
  | zoneAudioFormat (zone : Nat) (format : Str)
  | zoneAudioChannels (zone : Nat) (channels : Str)
  | zoneVideoResolution (zone : Nat) (resolution : Str)
  | zoneListeningMode (zone : Nat) (mode_number : Nat) (mode_name : Str)
  | zoneSampleRateInfo (zone : Nat) (info : Str)
  | zoneSampleRate (zone : Nat) (rate_khz : Nat)
  | zoneBitDepth (zone : Nat) (depth : Nat)
  deriving DecidableEq, Repr

/-- Fixed listening-mode name table of `const.LISTENING_MODES`, with the
`Mode n` fallback used by the parser for unknown codes. -/
def listeningModeName (n : Nat) : Str :=
  match n with
  | 0 => str "None"
  | 1 => str "AnthemLogic Cinema"
  | 2 => str "AnthemLogic Music"
  | 3 => str "Dolby Surround"
  | 4 => str "DTS Neural:X"
  | 5 => str "Stereo"
  | 6 => str "Multi-Channel Stereo"
  | 7 => str "All-Channel Stereo"
  | 8 => str "PLIIx Movie"
  | 9 => str "PLIIx Music"
  | 10 => str "Neo:6 Cinema"
  | 11 => str "Neo:6 Music"
  | 12 => str "Dolby Digital"
  | 13 => str "DTS"
  | 14 => str "PCM Stereo"
  | 15 => str "Direct"
  | _ => str "Mode " ++ natToChars n

/-- Model of the anchored match against `ICN` followed by a digits group. -/
def matchICN (l : Str) : Option Nat :=
  if (str "ICN").isPrefixOf l then (parseDigits (l.drop 3)).map Prod.fst else none

/-- Model of the anchored match against `ISN`, an exactly-two-digit group and a
nonempty rest, as used for input-name responses of the newer model family. -/
def matchISN (l : Str) : Option (Nat × Str) :=
  match l with
  | 'I' :: 'S' :: 'N' :: d1 :: d2 :: rest =>
    if d1.isDigit && d2.isDigit && !rest.isEmpty then
      some ((d1.toNat - 48) * 10 + (d2.toNat - 48), rest)
    else none
  | _ => none

/-- Two-digit arm of the anchored older-model input-name pattern: `IS`, two
digits, the literal `IN`, and a nonempty rest. -/
def matchISIN2 (l : Str) : Option (Nat × Str) :=
  match l with
  | 'I' :: 'S' :: d1 :: d2 :: 'I' :: 'N' :: r =>
    if d1.isDigit && d2.isDigit && !r.isEmpty then
      some ((d1.toNat - 48) * 10 + (d2.toNat - 48), r)
    else none
  | _ => none

/-- One-digit arm of the anchored older-model input-name pattern. -/
def matchISIN1 (l : Str) : Option (Nat × Str) :=
  match l with
  | 'I' :: 'S' :: d1 :: 'I' :: 'N' :: r =>
    if d1.isDigit && !r.isEmpty then some (d1.toNat - 48, r) else none
  | _ => none

/-- Model of the anchored older-model input-name pattern with a one-or-two
digit group: the greedy engine tries two digits first, then backtracks. -/
def matchISIN (l : Str) : Option (Nat × Str) :=
  (matchISIN2 l).orElse (fun _ => matchISIN1 l)

/-- Model of the anchored zone pattern `Z`, a greedy digit group, and a
nonempty payload group.  When the digits reach the end of the line the greedy
engine backtracks and gives the last digit to the payload group. -/
def matchZonePayload (l : Str) : Option (Nat × Str) :=
  match l with
  | 'Z' :: rest =>
    let ds := rest.takeWhile Char.isDigit
    let tail := rest.dropWhile Char.isDigit
    if ds.isEmpty then none
    else if tail.isEmpty then
      if ds.length ≥ 2 then some (digitsVal ds.dropLast, [ds.getLastD '0']) else none
    else some (digitsVal ds, tail)
  | _ => none

/-- Zone-payload branch chain of `parse_message`.  Each Python branch is an
independent `if` whose body returns only when its inner search succeeds, so a
branch whose tag occurs but whose search fails falls through to the next. -/
def parseZonePayload (zone : Nat) (payload : Str) : Option ParsedMessage :=
  if hasSub (str "POW") payload then
    some (.zonePower zone (hasSub (str "1") payload))
  else
    (if hasSub (str "VOL") payload then
      (searchIntAfter (str "VOL") payload).map (fun v => .zoneVolume zone v)
     else none) |>.orElse fun _ =>
    (if hasSub (str "MUT") payload then
      some (.zoneMute zone (hasSub (str "1") payload))
     else none) |>.orElse fun _ =>
    (if hasSub (str "INP") payload then
      (searchNatAfter (str "INP") payload).map (fun n => .zoneInput zone n)
     else none) |>.orElse fun _ =>
    (if hasSub (str "AIF") payload then
      (searchRestAfter (str "AIF") payload).map (fun r => .zoneAudioFormat zone (pyStrip r))
     else none) |>.orElse fun _ =>
    (if hasSub (str "AIC") payload then
      (searchRestAfter (str "AIC") payload).map (fun r => .zoneAudioChannels zone (pyStrip r))
     else none) |>.orElse fun _ =>
    (if hasSub (str "VIR") payload then
      (searchRestAfter (str "VIR") payload).map (fun r => .zoneVideoResolution zone (pyStrip r))
     else none) |>.orElse fun _ =>
    (if hasSub (str "ALM") payload && !hasSub (str "?") payload then
      (searchNatAfter (str "ALM") payload).map
        (fun n => .zoneListeningMode zone n (listeningModeName n))
     else none) |>.orElse fun _ =>
    (if hasSub (str "AIR") payload then
      (searchRestAfter (str "AIR") payload).map (fun r => .zoneSampleRateInfo zone (pyStrip r))
     else none) |>.orElse fun _ =>
    (if hasSub (str "SRT") payload then
      (searchNatAfter (str "SRT") payload).map (fun n => .zoneSampleRate zone n)
     else none) |>.orElse fun _ =>
    (if hasSub (str "BDP") payload then
      (searchNatAfter (str "BDP") payload).map (fun n => .zoneBitDepth zone n)
     else none)

/-- Model of `parser.parse_message`: empty and error-prefixed lines parse to
`none`, then the system, input-count, input-name and zone grammars are tried
in source order. -/
def parse_message (response : Str) : Option ParsedMessage :=
  if response.isEmpty then none
  else if (str "!I").isPrefixOf response || (str "!E").isPrefixOf response then none
  else if (str "IDM").isPrefixOf response then
    some (.systemModel (pyStrip (response.drop 3)))
  else
    match matchICN response with
    | some c => some (.inputCount c)
    | none =>
      match matchISN response with
      | some p => some (.inputName p.1 (pyStrip p.2))
      | none =>
        match matchISIN response with
        | some p => some (.inputName p.1 (pyStrip p.2))
        | none =>
          match matchZonePayload response with
          | some p => parseZonePayload p.1 p.2
          | none => none

/-! ## Client state cache (`client.py`)

`ClientState` models the fields of `AnthemClient` that
`_update_state_from_response` reads and writes: the scalar entries and the
per-zone sub-dictionaries of `_state_cache` (zone entries are keyed by the
string `zone_` followed by the parsed zone number, which is in bijection with
the number itself), `_input_count`, `_input_names` and
`_input_discovery_complete`. -/

/-- Per-zone sub-dictionary of the client `_state_cache`; a field is `none`
while its key is absent from the Python dict. -/
structure ZoneCache where
  power : Option Bool := none
  volume : Option Int := none
  muted : Option Bool := none
  input : Option Nat := none
  input_name : Option Str := none
  audio_format : Option Str := none
  deriving DecidableEq, Repr

/-- State of `AnthemClient` relevant to response processing. -/
structure ClientState where
  model : Option Str := none
  device_name : Option Str := none
  region : Option Str := none
  software_version : Option Str := none
  zones : List (Nat × ZoneCache) := []
  input_count : Nat := 0
  input_names : List (Nat × Str) := []
  input_discovery_complete : Bool := false
  deriving DecidableEq, Repr

/-- Freshly constructed client state (`AnthemClient.__init__`). -/
def initClient : ClientState := {}

/-- Zone sub-branch of the client `_update_state_from_response`: an
`elif` chain over substring tests on the whole response line. -/
def zoneUpdateClient (response : Str) (input_names : List (Nat × Str))
    (zc : ZoneCache) : ZoneCache :=
  if hasSub (str "POW") response then
    { zc with power := some (hasSub (str "1") response) }
  else if hasSub (str "VOL") response then
    match searchIntAfter (str "VOL") response with
    | some v => { zc with volume := some v }
    | none => zc
  else if hasSub (str "MUT") response then
    { zc with muted := some (hasSub (str "1") response) }
  else if hasSub (str "INP") response then
    match searchNatAfter (str "INP") response with
    | some n =>
      match alookup n input_names with
      | some nm => { zc with input := some n, input_name := some nm }
      | none => { zc with input := some n }
    | none => zc
  else if hasSub (str "SIP") response then
    match searchQuoted (str "SIP") response with
    | some nm => { zc with input_name := some nm }
    | none => zc
  else if hasSub (str "AIC") response then
    match searchQuoted (str "AIC") response with
    | some f => { zc with audio_format := some f }
    | none => zc
  else zc

/-- Model of `AnthemClient._update_state_from_response`: the `elif` chain over
response prefixes.  The zone branch always creates the zone entry (Python
inserts an empty dict for an unseen zone key before dispatching), and the
input-name branch marks discovery complete whenever the name dictionary has
reached the announced input count. -/
def updateClient (st : ClientState) (response : Str) : ClientState :=
  if (str "IDM").isPrefixOf response then
    { st with model := some (pyStrip (response.drop 3)) }
  else if (str "IDN").isPrefixOf response then
    { st with device_name := some (pyStrip (response.drop 3)) }
  else if (str "IDR").isPrefixOf response then
    { st with region := some (pyStrip (response.drop 3)) }
  else if (str "IDS").isPrefixOf response then
    { st with software_version := some (pyStrip (response.drop 3)) }
  else if (str "ICN").isPrefixOf response then
    match parseDigits (response.drop 3) with
    | some p => { st with input_count := p.1 }
    | none => st
  else if (str "ISN").isPrefixOf response && decide (response.length > 5) then
    match matchISN response with
    | some p =>
      let names2 := upsert p.1 (pyStrip p.2) st.input_names
      if names2.length ≥ st.input_count then
        { st with input_names := names2, input_discovery_complete := true }
      else { st with input_names := names2 }
    | none => st
  else if (str "Z").isPrefixOf response then
    match response with
    | 'Z' :: rest =>
      match parseDigits rest with
      | some p =>
        let zc := (alookup p.1 st.zones).getD {}
        { st with zones := upsert p.1 (zoneUpdateClient response st.input_names zc) st.zones }
      | none => st
    | _ => st
  else st

/-- Model of `AnthemClient.get_zone_state`: a pure read of the cache that
returns the empty record for an absent zone and creates nothing. -/
def get_zone_state (st : ClientState) (zone : Nat) : ZoneCache :=
  (alookup zone st.zones).getD {}

/-- Default source list returned before any input name is known. -/
def defaultInputList : List Str :=
  [str "HDMI 1", str "HDMI 2", str "HDMI 3", str "HDMI 4",
   str "HDMI 5", str "HDMI 6", str "HDMI 7", str "HDMI 8",
   str "Analog 1", str "Analog 2", str "Digital 1", str "Digital 2",
   str "USB", str "Network", str "ARC"]

/-- Model of `AnthemClient.get_input_list`: the fallback list when no name was
discovered, otherwise one entry per input index from one to the announced
count, with a generic name filling any gap. -/
def get_input_list (st : ClientState) : List Str :=
  if st.input_names.isEmpty then defaultInputList
  else (List.range st.input_count).map
    (fun i => (alookup (i + 1) st.input_names).getD (str "Input " ++ natToChars (i + 1)))

/-! ## Device state cache and events (`device.py`, main-branch side)

`device.py` contains an unresolved merge; the claims reference the
main-branch side of the conflict, which is what is modelled here.
`processDevice` returns the successor state together with the list of
events this response emitted, in emission order. -/

/-- Per-zone sub-dictionary of the device `_state_cache`. -/
structure DevZone where
  power : Option Bool := none
  volume : Option Int := none
  muted : Option Bool := none
  input : Option Nat := none
  input_name : Option Str := none
  deriving DecidableEq, Repr

/-- Events emitted through `self.events.emit(DeviceEvents.UPDATE, ...)`:
a per-zone state change, or the inputs-discovered notification sent to the
media-player entity of one configured zone. -/
inductive DevEvent where
  | zoneChanged (zone : Nat) (state : DevZone)
  | inputsDiscovered (zone : Nat)
  deriving DecidableEq, Repr

/-- State of `AnthemDevice` relevant to response processing; `config_zones`
is the zone list of the device configuration. -/
structure DeviceState where
  config_zones : List Nat := []
  model : Option Str := none
  device_name : Option Str := none
  region : Option Str := none
  software_version : Option Str := none
  zones : List (Nat × DevZone) := []
  input_count : Nat := 0
  input_names : List (Nat × Str) := []
  input_discovery_complete : Bool := false
  deriving DecidableEq, Repr

/-- Freshly constructed device state for a given configured zone list. -/
def initDevice (zs : List Nat) : DeviceState := { config_zones := zs }

/-- Zone sub-branch of the device `_update_state_from_response`: like the
client branch but deduplicating — a field is rewritten, and a zone-changed
event emitted, only when the decoded value differs from the cached one.  The
volume pattern also accepts a fractional part, which `int(float(...))`
truncates toward zero, so the decoded value is the signed integer part. -/
def zoneUpdateDevice (response : Str) (input_names : List (Nat × Str))
    (zc : DevZone) : DevZone × Bool :=
  if hasSub (str "POW") response then
    let power := hasSub (str "1") response
    if zc.power ≠ some power then ({ zc with power := some power }, true) else (zc, false)
  else if hasSub (str "VOL") response then
    match searchIntAfter (str "VOL") response with
    | some v => if zc.volume ≠ some v then ({ zc with volume := some v }, true) else (zc, false)
    | none => (zc, false)
  else if hasSub (str "MUT") response then
    let muted := hasSub (str "1") response
    if zc.muted ≠ some muted then ({ zc with muted := some muted }, true) else (zc, false)
  else if hasSub (str "INP") response then
    match searchNatAfter (str "INP") response with
    | some n =>
      if zc.input ≠ some n then
        match alookup n input_names with
        | some nm => ({ zc with input := some n, input_name := some nm }, true)
        | none => ({ zc with input := some n }, true)
      else (zc, false)
    | none => (zc, false)
  else (zc, false)

/-- Model of the device `_update_state_from_response` (main-branch side). -/
def updateDevice (st : DeviceState) (response : Str) : DeviceState × List DevEvent :=
  if (str "IDM").isPrefixOf response then
    ({ st with model := some (pyStrip (response.drop 3)) }, [])
  else if (str "IDN").isPrefixOf response then
    ({ st with device_name := some (pyStrip (response.drop 3)) }, [])
  else if (str "IDR").isPrefixOf response then
    ({ st with region := some (pyStrip (response.drop 3)) }, [])
  else if (str "IDS").isPrefixOf response then
    ({ st with software_version := some (pyStrip (response.drop 3)) }, [])
  else if (str "ICN").isPrefixOf response then
    match parseDigits (response.drop 3) with
    | some p => ({ st with input_count := p.1 }, [])
    | none => (st, [])
  else if (str "ISN").isPrefixOf response && decide (response.length > 5) then
    match matchISN response with
    | some p =>
      let names2 := upsert p.1 (pyStrip p.2) st.input_names
      if names2.length ≥ st.input_count then
        ({ st with input_names := names2, input_discovery_complete := true },
         st.config_zones.map DevEvent.inputsDiscovered)
      else ({ st with input_names := names2 }, [])
    | none => (st, [])
  else if (str "SIP").isPrefixOf response then
    (st, [])
  else if (str "Z").isPrefixOf response then
    match response with
    | 'Z' :: rest =>
      match parseDigits rest with
      | some p =>
        let zc := (alookup p.1 st.zones).getD {}
        let r := zoneUpdateDevice response st.input_names zc
        ({ st with zones := upsert p.1 r.1 st.zones },
         if r.2 then [DevEvent.zoneChanged p.1 r.1] else [])
      | none => (st, [])
    | _ => (st, [])
  else (st, [])

/-- Model of the device `_process_response`: error-prefixed lines are logged
and dropped before any state update; exceptions from the update are caught,
which the total model renders as plain totality. -/
def processDevice (st : DeviceState) (response : Str) : DeviceState × List DevEvent :=
  if (str "!I").isPrefixOf response || (str "!E").isPrefixOf response then (st, [])
  else updateDevice st response

/-- Folding `_process_response` over a list of received lines, accumulating
the emitted events in order. -/
def processDeviceAll (st : DeviceState) : List Str → DeviceState × List DevEvent
  | [] => (st, [])
  | r :: rs =>
    let p := processDevice st r
    let q := processDeviceAll p.1 rs
    (q.1, p.2 ++ q.2)

/-- Model of the device `get_zone_state` (main-branch side): a pure read
returning the empty record for an absent zone. -/
def dev_get_zone_state (st : DeviceState) (zone : Nat) : DevZone :=
  (alookup zone st.zones).getD {}

/-! ## Connection lifecycle (`client.py`)

`ConnState` records the truthiness of the connection-related fields of
`AnthemClient`; `disconnect` is its total state transition (the Python method
catches every exception raised while cancelling the listen task or closing
the writer, so the model is a plain function).  `connectModel` runs the retry
loop of `connect` against an oracle giving the success of each attempt; it
returns the overall result, the number of attempts performed, and the list of
backoff delays slept, in order. -/

/-- Truthiness of the connection-related fields of `AnthemClient`.  In
`__init__` all of them are false (`False` or `None`). -/
structure ConnState where
  connected : Bool := false
  reader : Bool := false
  writer : Bool := false
  listen_task : Bool := false
  deriving DecidableEq, Repr, Fintype

/-- Model of `AnthemClient.disconnect`: an early return when neither connected
nor holding a writer, otherwise the listen task is cancelled and cleared, the
writer closed, and every connection field reset. -/
def disconnect (s : ConnState) : ConnState :=
  if !s.connected && !s.writer then s
  else { connected := false, reader := false, writer := false, listen_task := false }

/-- Model of the retry loop of `AnthemClient.connect` for a client that is not
already connected.  `outcome i` tells whether attempt `i` succeeds (the TCP
open, handshake sends and delays of one attempt are collapsed into the
oracle).  Arguments: index of the current attempt, remaining attempts out of
`max_retries = 3`, current `retry_delay`, delays slept so far. -/
def connectGo (outcome : Nat → Bool) : Nat → Nat → Nat → List Nat → Bool × Nat × List Nat
  | attempt, 0, _, slept => (false, attempt, slept)
  | attempt, remaining + 1, delay, slept =>
    if outcome attempt then (true, attempt + 1, slept)
    else if remaining > 0 then connectGo outcome (attempt + 1) remaining (delay * 2) (slept ++ [delay])
    else connectGo outcome (attempt + 1) remaining delay slept

/-- Result of one `connect()` call: overall success, attempts performed, and
internal backoff delays slept.  The Python delay is the float `2.0` doubled
after each failed non-final attempt; it stays an exact whole number of
seconds forever, so the model carries it as a natural number. -/
def connectModel (outcome : Nat → Bool) : Bool × Nat × List Nat :=
  connectGo outcome 0 3 2 []

/-! ## Volume conversions (`media_player.py`) and command encoder

The Python conversions use binary floating point, but every intermediate
value they produce at the points the theorems mention (multiples of one half
between minus ninety and one hundred) is exactly representable and every
operation on them is exact, so rational arithmetic is a faithful model. -/

/-- Python `int()` on a rational: truncation toward zero. -/
def pyTrunc (q : ℚ) : Int := if q < 0 then -(Int.floor (-q)) else Int.floor q

/-- Model of `AnthemMediaPlayer._db_to_percentage`. -/
def db_to_percentage (db_value : Int) : ℚ :=
  max 0 (min 100 (((db_value : ℚ) + 90) / 90 * 100))

/-- Model of `AnthemMediaPlayer._percentage_to_db`. -/
def percentage_to_db (percentage : ℚ) : Int :=
  max (-90) (min 0 (pyTrunc (percentage * 90 / 100 - 90)))

/-- Model of `set_volume` in both `client.py` and `device.py` (their bodies
are identical): clamp the requested volume into the protocol range, then
format the wire string. -/
def set_volume_cmd (volume : Int) (zone : Nat) : Str :=
  let v := max (-90) (min 0 volume)
  'Z' :: natToChars zone ++ str "VOL" ++ intToChars v

/-- Wire string the specification prescribes for a set-volume operation on a
zone: the letter Z, the zone number, the letters VOL, and the dB value. -/
def specVolumeWire (zone : Nat) (v : Int) : Str :=
  'Z' :: natToChars zone ++ str "VOL" ++ intToChars v

/-! ## Wire framers (`client._listen` and `device.maintain_connection`)

Both read loops append each received chunk, decoded as ASCII with invalid
bytes ignored, to a leftover buffer and then repeatedly split off complete
lines, processing every stripped nonempty line.  The client splits on the
first carriage return if the buffer holds one anywhere, else on the first
line feed; the device splits on semicolons only.  `drainAux` runs such a
splitting loop with fuel (each split strictly shrinks the buffer, so the
buffer length is always enough fuel); `feedClient` / `feedDevice` fold chunks
through the loop, accumulating the emitted lines in order. -/

/-- Model of Python `buffer.split(sep, 1)`: the part before the first
occurrence of `sep` and the part after it. -/
def splitAtFirst (sep : Char) : Str → Str × Str
  | [] => ([], [])
  | c :: rest =>
    if c = sep then ([], rest)
    else
      let p := splitAtFirst sep rest
      (c :: p.1, p.2)

/-- One iteration of the client splitting loop: split on a carriage return if
the buffer holds one, else on a line feed, else stop. -/
def popLineClient (buf : Str) : Option (Str × Str) :=
  if buf.contains '\r' then some (splitAtFirst '\r' buf)
  else if buf.contains '\n' then some (splitAtFirst '\n' buf)
  else none

/-- One iteration of the device splitting loop: split on a semicolon. -/
def popLineDevice (buf : Str) : Option (Str × Str) :=
  if buf.contains ';' then some (splitAtFirst ';' buf) else none

/-- Fuel-driven splitting loop over a buffer, returning the raw lines split
off and the leftover buffer. -/
def drainAux (pop : Str → Option (Str × Str)) : Nat → Str → List Str × Str
  | 0, buf => ([], buf)
  | fuel + 1, buf =>
    match pop buf with
    | none => ([], buf)
    | some (line, rest) =>
      let p := drainAux pop fuel rest
      (line :: p.1, p.2)

/-- Client splitting loop on one buffer. -/
def drainClient (buf : Str) : List Str × Str := drainAux popLineClient buf.length buf

/-- Device splitting loop on one buffer. -/
def drainDevice (buf : Str) : List Str × Str := drainAux popLineDevice buf.length buf

/-- Lines actually processed from a batch of raw split lines: each is
stripped, and empty results are skipped. -/
def emitLines (ls : List Str) : List Str :=
  (ls.map pyStrip).filter (fun l => !l.isEmpty)

/-- Model of `data.decode` with the ASCII codec and errors ignored: every
byte below 128 becomes the corresponding character, other bytes are dropped. -/
def decodeAscii (bs : List Nat) : Str :=
  bs.filterMap (fun b => if b < 128 then some (Char.ofNat b) else none)

/-- Client read loop over a list of received chunks, carrying the leftover
buffer and the processed lines. -/
def feedClient : Str × List Str → List (List Nat) → Str × List Str
  | s, [] => s
  | (buf, acc), chunk :: rest =>
    let p := drainClient (buf ++ decodeAscii chunk)
    feedClient (p.2, acc ++ emitLines p.1) rest

/-- Lines the client read loop processes for a given chunk sequence. -/
def clientLines (chunks : List (List Nat)) : List Str := (feedClient ([], []) chunks).2

/-- Device read loop over a list of received chunks. -/
def feedDevice : Str × List Str → List (List Nat) → Str × List Str
  | s, [] => s
  | (buf, acc), chunk :: rest =>
    let p := drainDevice (buf ++ decodeAscii chunk)
    feedDevice (p.2, acc ++ emitLines p.1) rest

/-- Lines the device read loop processes for a given chunk sequence. -/
def deviceLines (chunks : List (List Nat)) : List Str := (feedDevice ([], []) chunks).2

/-- Reference splitter: all maximal separator-free segments before each
separator, plus the leftover segment after the last separator. -/
def splitSep (sep : Char) : Str → List Str × Str
  | [] => ([], [])
  | c :: rest =>
    let p := splitSep sep rest
    if c = sep then ([] :: p.1, p.2)
    else
      match p.1 with
      | [] => ([], c :: p.2)
      | l :: ls => ((c :: l) :: ls, p.2)

/-- Reference read loop driven by `splitSep` on character chunks. -/
def feedS (sep : Char) : Str × List Str → List Str → Str × List Str
  | s, [] => s
  | (buf, acc), chunk :: rest =>
    let p := splitSep sep (buf ++ chunk)
    feedS sep (p.2, acc ++ emitLines p.1) rest

/-! ## Auxiliary definitions used by the theorems -/

/-- Freshly constructed connection state (`AnthemClient.__init__`): not
connected, no reader, no writer, no listen task. -/
def initConn : ConnState := {}

/-- Zone number a response line would address in the zone branch of the state
handlers: the anchored match of Z followed by a digit run. -/
def zoneTarget (r : Str) : Option Nat :=
  match r with
  | 'Z' :: rest => (parseDigits rest).map Prod.fst
  | _ => none

/-- Device state whose zone one has a cached volume, built by applying a prior
in-range volume response to a fresh device. -/
def c1PriorState : DeviceState := (processDevice (initDevice [1]) (str "Z1VOL-40")).1

/-- Two-digit zero-padded rendering of an input index, as produced by the
Python format spec `02d` for indices up to ninety-nine. -/
def twoDigits (i : Nat) : Str :=
  if i < 10 then ['0', digitChar i] else [digitChar (i / 10), digitChar (i % 10)]

/-- Input-count announcement line for a count `n`. -/
def icnMsg (n : Nat) : Str := str "ICN" ++ natToChars n

/-- Input-name response line for index `i` with name `nm`. -/
def isnMsg (i : Nat) (nm : Str) : Str := str "ISN" ++ twoDigits i ++ nm

/-- Input-name response lines for a list of names, indexed consecutively
starting at `start`. -/
def isnMsgsFrom (start : Nat) : List Str → List Str
  | [] => []
  | nm :: rest => isnMsg start nm :: isnMsgsFrom (start + 1) rest

/-- Association list pairing consecutive indices from `start` with the
elements of a list. -/
def enumFrom (start : Nat) : List Str → List (Nat × Str)
  | [] => []
  | nm :: rest => (start, nm) :: enumFrom (start + 1) rest

/-! ## Dictionary lemmas -/

theorem alookup_upsert_self {α β : Type} [DecidableEq α] (k : α) (v : β)
    (l : List (α × β)) : alookup k (upsert k v l) = some v := by
  induction l with
  | nil => simp [upsert, alookup]
  | cons p rest ih =>
    obtain ⟨k2, v2⟩ := p
    by_cases h : k = k2 <;> simp [upsert, alookup, h, ih]

theorem alookup_upsert_ne {α β : Type} [DecidableEq α] {k k2 : α} (v : β)
    (l : List (α × β)) (h : k2 ≠ k) : alookup k2 (upsert k v l) = alookup k2 l := by
  induction l with
  | nil => simp [upsert, alookup, h]
  | cons p rest ih =>
    obtain ⟨k3, v3⟩ := p
    by_cases h3 : k = k3
    · subst h3; simp [upsert, alookup, h]
    · simp [upsert, alookup, h3, ih]

theorem upsert_fresh {α β : Type} [DecidableEq α] {k : α} (v : β)
    {l : List (α × β)} (h : alookup k l = none) : upsert k v l = l ++ [(k, v)] := by
  induction l with
  | nil => simp [upsert]
  | cons p rest ih =>
    obtain ⟨k2, v2⟩ := p
    by_cases h2 : k = k2
    · simp [alookup, h2] at h
    · simp [alookup, h2] at h
      simp [upsert, h2, ih h]

/-! ## C5: volume percentage round trip -/

/-- C5: the percentage and dB conversions of the media player round-trip
exactly at minus ninety, minus forty-five and zero dB, and map the boundary
points exactly in both directions.  Every intermediate floating point value at
these inputs is exactly representable and every operation on them exact, so
the rational model coincides with the Python float computation. -/
theorem anthem_C5 :
    percentage_to_db (db_to_percentage (-90)) = -90 ∧
    percentage_to_db (db_to_percentage (-45)) = -45 ∧
    percentage_to_db (db_to_percentage 0) = 0 ∧
    db_to_percentage (-90) = 0 ∧
    db_to_percentage 0 = 100 ∧
    percentage_to_db 0 = -90 ∧
    percentage_to_db 100 = 0 := by
  norm_num [percentage_to_db, db_to_percentage, pyTrunc]

/-! ## C8: outbound set-volume encoding -/

/-- C8: for every integer volume and zone, `set_volume` encodes the wire
string built from the zone number and the volume clamped into the protocol
range; the clamped value always lies in that range, and an in-range volume is
encoded unchanged.  The encoder is total: out-of-range values are clamped,
never rejected. -/
theorem anthem_C8 (volume : Int) (zone : Nat) :
    set_volume_cmd volume zone = specVolumeWire zone (max (-90) (min 0 volume)) ∧
    -90 ≤ max (-90) (min 0 volume) ∧
    max (-90) (min 0 volume) ≤ 0 ∧
    (-90 ≤ volume → volume ≤ 0 →
      set_volume_cmd volume zone = specVolumeWire zone volume) := by
  refine ⟨rfl, le_max_left _ _, by omega, fun h1 h2 => ?_⟩
  have h : max (-90) (min 0 volume) = volume := by omega
  calc set_volume_cmd volume zone
      = specVolumeWire zone (max (-90) (min 0 volume)) := rfl
    _ = specVolumeWire zone volume := by rw [h]

/-- Witness instantiating C8 at volume minus forty-five on zone one, where
both range hypotheses hold. -/
theorem anthem_C8_witness :
    set_volume_cmd (-45) 1 = specVolumeWire 1 (-45) :=
  (anthem_C8 (-45) 1).2.2.2 (by decide) (by decide)

/-! ## C9: disconnect is idempotent and total -/

/-- C9: `disconnect` is a total function of the connection state (Python
catches every exception in its body), it is a no-op on the fresh
never-connected state, which already is the disconnected state; for every
state, after one call the engine is not connected and holds no writer, and a
repeated call changes nothing.  The reader (and listen task) are cleared
unconditionally whenever the engine was connected or held a writer — in
particular when disconnecting a connected engine — and on every state
satisfying the reachable-state invariant that the reader and writer fields
agree (`connect` sets both together, `disconnect` clears both together, and
no other code touches the reader), so the engine always ends fully
disconnected. -/
theorem anthem_C9 :
    disconnect initConn = initConn ∧
    initConn.connected = false ∧ initConn.reader = false ∧ initConn.writer = false ∧
    ∀ s : ConnState,
      disconnect (disconnect s) = disconnect s ∧
      (disconnect s).connected = false ∧
      (disconnect s).writer = false ∧
      (s.connected = true ∨ s.writer = true →
        (disconnect s).reader = false ∧ (disconnect s).listen_task = false) ∧
      (s.reader = s.writer → (disconnect s).reader = false) := by decide

/-- Witness instantiating C9 on a fully connected engine — connected with
reader, writer and listen task all present — discharging the connectedness
hypothesis, so the cleared reader is certified in exactly the case a real
disconnect-after-connect exercises. -/
theorem anthem_C9_witness :
    (disconnect { connected := true, reader := true, writer := true, listen_task := true }).reader
      = false :=
  ((anthem_C9.2.2.2.2
    { connected := true, reader := true, writer := true, listen_task := true }).2.2.2.1
      (Or.inl rfl)).1

/-! ## C3: the connect retry loop -/

/-- C3 counterexample: with every attempt failing, one `connect()` call
performs three attempts, not at most one, and sleeps the internal backoff
delays of two and four seconds. -/
theorem anthem_C3_counterexample :
    (connectModel (fun _ => false)).2.1 = 3 ∧
    ¬ (connectModel (fun _ => false)).2.1 ≤ 1 ∧
    (connectModel (fun _ => false)).2.2 = [2, 4] := by decide

/-- C3 amended: `connect()` retries internally: it performs up to three
connection attempts per call, sleeping an internal backoff delay of two
seconds after the first failed attempt and four seconds after the second,
returns success as soon as an attempt succeeds, and reports failure only
after all three attempts fail. -/
theorem anthem_C3 (outcome : Nat → Bool) :
    connectModel outcome =
      (if outcome 0 then (true, 1, [])
       else if outcome 1 then (true, 2, [2])
       else if outcome 2 then (true, 3, [2, 4])
       else (false, 3, [2, 4])) := by
  cases h0 : outcome 0 <;> cases h1 : outcome 1 <;> cases h2 : outcome 2 <;>
    simp [connectModel, connectGo, h0, h1, h2]

/-! ## C4: power digit parsing -/

/-- C4 counterexample: a zone power line with an unparseable power digit is
not treated as unrecognized — the parser recognizes it as a zone power
message (with the off value, since no character 1 occurs in the payload). -/
theorem anthem_C4_counterexample :
    parse_message (str "Z1POWX") = some (.zonePower 1 false) := by decide

/-- C4 amended: parsing Z1POW1 yields zone one power on and Z1POW0 yields
power off, but a zone power line with an unparseable digit is not treated as
unrecognized: the parser yields a zone power message whose value is whether
the character 1 occurs in the payload (so Z1POWX parses as power off), and
the client state handler, which tests for the character 1 anywhere in the
line including the zone digit, caches power on for Z1POWX and emits a state
entry for the zone. -/
theorem anthem_C4 :
    parse_message (str "Z1POW1") = some (.zonePower 1 true) ∧
    parse_message (str "Z1POW0") = some (.zonePower 1 false) ∧
    parse_message (str "Z1POWX") = some (.zonePower 1 false) ∧
    parse_message (str "Z1POWX") ≠ none ∧
    (get_zone_state (updateClient initClient (str "Z1POWX")) 1).power = some true := by
  decide

/-! ## C7: error lines never mutate state -/

/-- C7: every line beginning with the invalid-command or execution-failed
error prefix, whatever its payload, parses to no message, leaves the whole
client state cache unchanged, and is dropped by the device response processor
before any state update, emitting no event.  All three handlers are total
functions, so no exception is raised. -/
theorem anthem_C7 (s : Str) (cst : ClientState) (dst : DeviceState) :
    parse_message ('!' :: 'I' :: s) = none ∧
    parse_message ('!' :: 'E' :: s) = none ∧
    updateClient cst ('!' :: 'I' :: s) = cst ∧
    updateClient cst ('!' :: 'E' :: s) = cst ∧
    processDevice dst ('!' :: 'I' :: s) = (dst, []) ∧
    processDevice dst ('!' :: 'E' :: s) = (dst, []) := by
  refine ⟨?_, ?_, ?_, ?_, ?_, ?_⟩ <;>
    simp [parse_message, updateClient, processDevice, str, List.isPrefixOf]

end AnthemAV





namespace AnthemAV

/-! ## C1: out-of-range incoming volume -/

/-- C1 counterexample: from a device state whose zone one caches minus forty
dB, the out-of-range volume response Z1VOL5 changes the cached volume (to
five) and emits a changed-state event, where the claim requires the prior
value to be kept and no event. -/
theorem anthem_C1_counterexample :
    (dev_get_zone_state (processDevice c1PriorState (str "Z1VOL5")).1 1).volume
        ≠ (dev_get_zone_state c1PriorState 1).volume ∧
    (processDevice c1PriorState (str "Z1VOL5")).2 ≠ [] := by decide

/-- C1 amended: incoming volume values are not range-checked.  Applying the
out-of-range volume response Z1VOL5 to any device state stores the decoded
value five as the cached volume of zone one, and emits a changed-state event
exactly when five differs from the previously cached volume; the client state
handler likewise stores the out-of-range value unconditionally. -/
theorem anthem_C1 (dst : DeviceState) (cst : ClientState) :
    (dev_get_zone_state (processDevice dst (str "Z1VOL5")).1 1).volume = some 5 ∧
    ((processDevice dst (str "Z1VOL5")).2 = [] ↔
      (dev_get_zone_state dst 1).volume = some 5) ∧
    (get_zone_state (updateClient cst (str "Z1VOL5")) 1).volume = some 5 := by
  refine ⟨?_, ?_, ?_⟩
  · simp [processDevice, updateDevice, zoneUpdateDevice, dev_get_zone_state, str, hasSub,
      List.isPrefixOf, searchIntAfter, parseSignedInt, parseDigits, digitsVal,
      alookup_upsert_self]
    split <;> simp_all
  · simp [processDevice, updateDevice, zoneUpdateDevice, dev_get_zone_state, str, hasSub,
      List.isPrefixOf, searchIntAfter, parseSignedInt, parseDigits, digitsVal]
    split <;> simp_all
  · simp [updateClient, zoneUpdateClient, get_zone_state, str, hasSub,
      List.isPrefixOf, searchIntAfter, parseSignedInt, parseDigits, digitsVal,
      alookup_upsert_self]

/-! ## C10: reading a never-touched zone -/

theorem updateClient_zones_frame (st : ClientState) (r : Str) {z : Nat}
    (h : zoneTarget r ≠ some z) :
    alookup z (updateClient st r).zones = alookup z st.zones := by
  unfold updateClient
  repeat' split
  all_goals try rfl
  all_goals dsimp only
  all_goals repeat' split
  all_goals try rfl
  all_goals
    apply alookup_upsert_ne
  all_goals
    intro he
  all_goals
    exact h (by simp_all [zoneTarget])

theorem processDevice_zones_frame (st : DeviceState) (r : Str) {z : Nat}
    (h : zoneTarget r ≠ some z) :
    alookup z (processDevice st r).1.zones = alookup z st.zones := by
  unfold processDevice updateDevice
  by_cases c0 : ((str "!I").isPrefixOf r || (str "!E").isPrefixOf r) = true
  · rw [if_pos c0]
  · rw [if_neg c0]
    by_cases c1 : (str "IDM").isPrefixOf r = true
    · rw [if_pos c1]
    · rw [if_neg c1]
      by_cases c2 : (str "IDN").isPrefixOf r = true
      · rw [if_pos c2]
      · rw [if_neg c2]
        by_cases c3 : (str "IDR").isPrefixOf r = true
        · rw [if_pos c3]
        · rw [if_neg c3]
          by_cases c4 : (str "IDS").isPrefixOf r = true
          · rw [if_pos c4]
          · rw [if_neg c4]
            by_cases c5 : (str "ICN").isPrefixOf r = true
            · rw [if_pos c5]
              rcases hp : parseDigits (List.drop 3 r) with _ | p <;> simp [hp]
            · rw [if_neg c5]
              by_cases c6 : ((str "ISN").isPrefixOf r && decide (List.length r > 5)) = true
              · rw [if_pos c6]
                rcases hm : matchISN r with _ | p
                · simp [hm]
                · simp only [hm]
                  split <;> rfl
              · rw [if_neg c6]
                by_cases c7 : (str "SIP").isPrefixOf r = true
                · rw [if_pos c7]
                · rw [if_neg c7]
                  by_cases c8 : (str "Z").isPrefixOf r = true
                  · rw [if_pos c8]
                    split
                    · rename_i rest
                      rcases hp : parseDigits rest with _ | p
                      · simp [hp]
                      · simp only [hp]
                        refine alookup_upsert_ne _ _ fun he => h ?_
                        simp [zoneTarget, hp, he]
                    · rfl
                  · rw [if_neg c8]

theorem foldClient_zones_none (rs : List Str) (st : ClientState) (z : Nat)
    (h : ∀ r ∈ rs, zoneTarget r ≠ some z) (h0 : alookup z st.zones = none) :
    alookup z (rs.foldl updateClient st).zones = none := by
  induction rs generalizing st with
  | nil => simpa using h0
  | cons r rest ih =>
    simp only [List.foldl_cons]
    refine ih _ (fun r2 hr => h r2 (by simp [hr])) ?_
    rw [updateClient_zones_frame st r (h r (by simp))]
    exact h0

theorem processDeviceAll_zones_none (rs : List Str) (st : DeviceState) (z : Nat)
    (h : ∀ r ∈ rs, zoneTarget r ≠ some z) (h0 : alookup z st.zones = none) :
    alookup z (processDeviceAll st rs).1.zones = none := by
  induction rs generalizing st with
  | nil => simpa [processDeviceAll] using h0
  | cons r rest ih =>
    simp only [processDeviceAll]
    refine ih _ (fun r2 hr => h r2 (by simp [hr])) ?_
    rw [processDevice_zones_frame st r (h r (by simp))]
    exact h0

/-- C10: for a zone number no processed response has ever addressed, the
synchronous accessor returns the empty record — not an error — on both the
client and the device: after feeding any list of responses none of which
parses to that zone number, the cache still holds no entry for the zone and
the accessor yields the empty record.  The accessor itself is a pure function
of the state and creates no entry. -/
theorem anthem_C10 (rs : List Str) (z : Nat) (zs : List Nat)
    (h : ∀ r ∈ rs, zoneTarget r ≠ some z) :
    alookup z (rs.foldl updateClient initClient).zones = none ∧
    get_zone_state (rs.foldl updateClient initClient) z = {} ∧
    alookup z (processDeviceAll (initDevice zs) rs).1.zones = none ∧
    dev_get_zone_state (processDeviceAll (initDevice zs) rs).1 z = {} := by
  have hc := foldClient_zones_none rs initClient z h (by simp [initClient, alookup])
  have hd := processDeviceAll_zones_none rs (initDevice zs) z h (by simp [initDevice, alookup])
  exact ⟨hc, by simp [get_zone_state, hc], hd, by simp [dev_get_zone_state, hd]⟩

/-- Witness instantiating C10 with responses addressing only zone two and a
populated capability table, read at zone one. -/
theorem anthem_C10_witness :
    get_zone_state ([str "Z2POW1", str "ICN3", str "Z2VOL-20"].foldl updateClient initClient) 1
      = {} :=
  (anthem_C10 [str "Z2POW1", str "ICN3", str "Z2VOL-20"] 1 [1, 2] (by decide)).2.1

end AnthemAV

namespace AnthemAV

/-! ## C2: chunk-boundary independence of the framers -/

theorem emitLines_append (a b : List Str) :
    emitLines (a ++ b) = emitLines a ++ emitLines b := by
  simp [emitLines]

theorem decodeAscii_append (a b : List Nat) :
    decodeAscii (a ++ b) = decodeAscii a ++ decodeAscii b := by
  simp [decodeAscii]

theorem decodeAscii_flatten (chunks : List (List Nat)) :
    (chunks.map decodeAscii).flatten = decodeAscii chunks.flatten := by
  induction chunks with
  | nil => simp [decodeAscii]
  | cons ch rest ih => simp [decodeAscii_append, ih]

theorem charOfNat_eq_LF (b : Nat) (hb : b < 128) : Char.ofNat b = '\n' ↔ b = 10 := by
  revert hb
  revert b
  decide

theorem noLF_decodeAscii {bs : List Nat} (h : (10 : Nat) ∉ bs) : '\n' ∉ decodeAscii bs := by
  intro hm
  simp only [decodeAscii, List.mem_filterMap] at hm
  rcases hm with ⟨b, hb, he⟩
  by_cases hlt : b < 128
  · rw [if_pos hlt] at he
    exact h (((charOfNat_eq_LF b hlt).1 (Option.some.inj he)) ▸ hb)
  · rw [if_neg hlt] at he
    cases he

theorem splitSep_no_sep {sep : Char} {l : Str} (h : sep ∉ l) : splitSep sep l = ([], l) := by
  induction l with
  | nil => rfl
  | cons c rest ih =>
    have hc : ¬ c = sep := fun he => h (by simp [he])
    have hr := ih (fun hm => h (by simp [hm]))
    simp [splitSep, hc, hr]

theorem sep_not_mem_rem (sep : Char) (l : Str) : sep ∉ (splitSep sep l).2 := by
  induction l with
  | nil => simp [splitSep]
  | cons c rest ih =>
    rcases hs : splitSep sep rest with ⟨ls, r⟩
    have ih2 : sep ∉ r := by rw [hs] at ih; exact ih
    by_cases hc : c = sep
    · simpa [splitSep, hc, hs] using ih2
    · rcases ls with _ | ⟨l0, ls⟩
      · simp only [splitSep, hs, if_neg hc]
        intro hm
        rcases List.mem_cons.1 hm with he | hm2
        · exact hc he.symm
        · exact ih2 hm2
      · simpa [splitSep, hc, hs] using ih2

theorem mem_rem_sub {sep c : Char} {l : Str} (h : c ∈ (splitSep sep l).2) : c ∈ l := by
  induction l with
  | nil => simp [splitSep] at h
  | cons c2 rest ih =>
    rcases hs : splitSep sep rest with ⟨ls, r⟩
    have ih2 : c ∈ r → c ∈ rest := fun hm => ih (by rw [hs]; exact hm)
    by_cases hc : c2 = sep
    · simp only [splitSep, hs, if_pos hc] at h
      exact List.mem_cons_of_mem _ (ih2 h)
    · rcases ls with _ | ⟨l0, ls⟩
      · simp only [splitSep, hs, if_neg hc] at h
        rcases List.mem_cons.1 h with he | hm2
        · exact he ▸ List.mem_cons_self _ _
        · exact List.mem_cons_of_mem _ (ih2 hm2)
      · simp only [splitSep, hs, if_neg hc] at h
        exact List.mem_cons_of_mem _ (ih2 h)

theorem splitSep_append (sep : Char) (a b : Str) :
    splitSep sep (a ++ b) =
      ((splitSep sep a).1 ++ (splitSep sep ((splitSep sep a).2 ++ b)).1,
       (splitSep sep ((splitSep sep a).2 ++ b)).2) := by
  induction a with
  | nil => simp [splitSep]
  | cons c a ih =>
    rcases h1 : splitSep sep a with ⟨la, ra⟩
    rcases h2 : splitSep sep (ra ++ b) with ⟨xl, xr⟩
    rw [h1] at ih
    rw [h2] at ih
    by_cases hc : c = sep
    · simp [List.cons_append, splitSep, hc, ih, h1, h2]
    · rcases la with _ | ⟨l0, la⟩ <;> rcases xl with _ | ⟨m0, xl⟩ <;>
        simp [List.cons_append, splitSep, hc, ih, h1, h2]

end AnthemAV

namespace AnthemAV

theorem contains_iff_mem {c : Char} {l : Str} : l.contains c = true ↔ c ∈ l :=
  List.elem_iff

theorem splitAtFirst_rem_length (sep : Char) (buf : Str) (h : sep ∈ buf) :
    (splitAtFirst sep buf).2.length < buf.length := by
  induction buf with
  | nil => cases h
  | cons c rest ih =>
    by_cases hc : c = sep
    · simp [splitAtFirst, hc]
    · have hr : sep ∈ rest := by
        rcases List.mem_cons.1 h with he | hm
        · exact absurd he.symm hc
        · exact hm
      have := ih hr
      simp only [splitAtFirst, if_neg hc, List.length_cons]
      omega

theorem mem_splitAtFirst_rem {sep c : Char} {buf : Str}
    (h : c ∈ (splitAtFirst sep buf).2) : c ∈ buf := by
  induction buf with
  | nil => simp [splitAtFirst] at h
  | cons c2 rest ih =>
    by_cases hc : c2 = sep
    · simp only [splitAtFirst, if_pos hc] at h
      exact List.mem_cons_of_mem _ h
    · simp only [splitAtFirst, if_neg hc] at h
      exact List.mem_cons_of_mem _ (ih h)

theorem splitSep_pop (sep : Char) (buf : Str) (h : sep ∈ buf) :
    splitSep sep buf =
      ((splitAtFirst sep buf).1 :: (splitSep sep (splitAtFirst sep buf).2).1,
       (splitSep sep (splitAtFirst sep buf).2).2) := by
  induction buf with
  | nil => cases h
  | cons c rest ih =>
    by_cases hc : c = sep
    · simp [splitSep, splitAtFirst, hc]
    · have hr : sep ∈ rest := by
        rcases List.mem_cons.1 h with he | hm
        · exact absurd he.symm hc
        · exact hm
      rcases hs : splitAtFirst sep rest with ⟨f1, f2⟩
      have ihh := ih hr
      rw [hs] at ihh
      simp [splitSep, splitAtFirst, hc, hs, ihh]

theorem drainAux_client (fuel : Nat) : ∀ buf : Str, buf.length ≤ fuel → '\n' ∉ buf →
    drainAux popLineClient fuel buf = splitSep '\r' buf := by
  induction fuel with
  | zero =>
    intro buf hl _
    have hb : buf = [] := List.length_eq_zero.1 (Nat.le_zero.1 hl)
    subst hb
    rfl
  | succ f ih =>
    intro buf hl hn
    by_cases hr : buf.contains '\r' = true
    · have hrm : '\r' ∈ buf := contains_iff_mem.1 hr
      rcases hs : splitAtFirst '\r' buf with ⟨line, rest⟩
      have hlen : rest.length < buf.length := by
        have := splitAtFirst_rem_length '\r' buf hrm
        rw [hs] at this
        exact this
      have hnr : '\n' ∉ rest := fun hm => hn (mem_splitAtFirst_rem (by rw [hs]; exact hm))
      have hrec := ih rest (by omega) hnr
      rw [splitSep_pop '\r' buf hrm, hs]
      simp only [drainAux, popLineClient, hr, if_true, hs, hrec]
    · have hr2 : buf.contains '\r' = false := Bool.eq_false_iff.2 hr
      have hn2 : buf.contains '\n' = false :=
        Bool.eq_false_iff.2 (fun hcc => hn (contains_iff_mem.1 hcc))
      have hrm : '\r' ∉ buf := fun hm => hr (contains_iff_mem.2 hm)
      rw [splitSep_no_sep hrm]
      simp [drainAux, popLineClient, hr2, hn2, hrm, hn]

theorem drainAux_device (fuel : Nat) : ∀ buf : Str, buf.length ≤ fuel →
    drainAux popLineDevice fuel buf = splitSep ';' buf := by
  induction fuel with
  | zero =>
    intro buf hl
    have hb : buf = [] := List.length_eq_zero.1 (Nat.le_zero.1 hl)
    subst hb
    rfl
  | succ f ih =>
    intro buf hl
    by_cases hr : buf.contains ';' = true
    · have hrm : ';' ∈ buf := contains_iff_mem.1 hr
      rcases hs : splitAtFirst ';' buf with ⟨line, rest⟩
      have hlen : rest.length < buf.length := by
        have := splitAtFirst_rem_length ';' buf hrm
        rw [hs] at this
        exact this
      have hrec := ih rest (by omega)
      rw [splitSep_pop ';' buf hrm, hs]
      simp only [drainAux, popLineDevice, hr, if_true, hs, hrec]
    · have hr2 : buf.contains ';' = false := Bool.eq_false_iff.2 hr
      have hrm : ';' ∉ buf := fun hm => hr (contains_iff_mem.2 hm)
      rw [splitSep_no_sep hrm]
      simp [drainAux, popLineDevice, hr2, hrm]

theorem drainClient_eq {buf : Str} (hn : '\n' ∉ buf) : drainClient buf = splitSep '\r' buf :=
  drainAux_client buf.length buf le_rfl hn

theorem drainDevice_eq (buf : Str) : drainDevice buf = splitSep ';' buf :=
  drainAux_device buf.length buf le_rfl

theorem feedS_spec (sep : Char) :
    ∀ (chunks : List Str) (buf : Str) (acc : List Str), sep ∉ buf →
      feedS sep (buf, acc) chunks =
        ((splitSep sep (buf ++ chunks.flatten)).2,
         acc ++ emitLines (splitSep sep (buf ++ chunks.flatten)).1) := by
  intro chunks
  induction chunks with
  | nil =>
    intro buf acc hb
    simp [feedS, splitSep_no_sep hb, emitLines]
  | cons ch rest ih =>
    intro buf acc hb
    simp only [feedS]
    rcases hp : splitSep sep (buf ++ ch) with ⟨ls, r⟩
    have hrs : sep ∉ r := by
      have := sep_not_mem_rem sep (buf ++ ch)
      rw [hp] at this
      exact this
    have happ := splitSep_append sep (buf ++ ch) rest.flatten
    rw [hp] at happ
    simp only [hp]
    rw [ih r (acc ++ emitLines ls) hrs]
    simp [List.flatten_cons, ← List.append_assoc, happ, emitLines_append]

theorem feedDevice_eq : ∀ (chunks : List (List Nat)) (buf : Str) (acc : List Str),
    feedDevice (buf, acc) chunks = feedS ';' (buf, acc) (chunks.map decodeAscii) := by
  intro chunks
  induction chunks with
  | nil => intro buf acc; rfl
  | cons ch rest ih =>
    intro buf acc
    simp only [feedDevice, feedS, List.map_cons, drainDevice_eq]
    exact ih _ _

theorem feedClient_eq : ∀ (chunks : List (List Nat)) (buf : Str) (acc : List Str),
    '\n' ∉ buf → (∀ ch ∈ chunks, '\n' ∉ decodeAscii ch) →
    feedClient (buf, acc) chunks = feedS '\r' (buf, acc) (chunks.map decodeAscii) := by
  intro chunks
  induction chunks with
  | nil => intro buf acc _ _; rfl
  | cons ch rest ih =>
    intro buf acc hb hc
    have hbc : '\n' ∉ buf ++ decodeAscii ch := by
      intro hm
      rcases List.mem_append.1 hm with h1 | h2
      · exact hb h1
      · exact hc ch (by simp) h2
    simp only [feedClient, feedS, List.map_cons, drainClient_eq hbc]
    exact ih _ _ (fun hm => hbc (mem_rem_sub hm)) (fun c2 h2 => hc c2 (by simp [h2]))

/-- C2 counterexample: the client framer is not chunk-boundary independent
when both carriage return and line feed occur.  The bytes of the characters
A, line feed, B, carriage return fed as two chunks yield the lines A and B,
but fed as one chunk yield the single line A-linefeed-B, because the splitting
loop prefers the first carriage return over an earlier line feed. -/
theorem anthem_C2_counterexample :
    clientLines [[65, 10], [66, 13]] ≠ clientLines [List.flatten [[65, 10], [66, 13]]] := by
  decide

/-- C2 amended: the device framer (semicolon-terminated responses) is
chunk-boundary independent for every byte sequence and every partition of it
into chunks; the client framer (carriage-return or line-feed terminated) is
chunk-boundary independent for every byte sequence that contains no line-feed
byte, which the counterexample shows is a necessary restriction. -/
theorem anthem_C2 :
    (∀ chunks : List (List Nat), deviceLines chunks = deviceLines [chunks.flatten]) ∧
    (∀ chunks : List (List Nat), (10 : Nat) ∉ chunks.flatten →
      clientLines chunks = clientLines [chunks.flatten]) := by
  constructor
  · intro chunks
    unfold deviceLines
    rw [feedDevice_eq, feedDevice_eq,
      feedS_spec ';' (chunks.map decodeAscii) [] [] (by simp),
      feedS_spec ';' ([chunks.flatten].map decodeAscii) [] [] (by simp)]
    simp [decodeAscii_flatten]
  · intro chunks h10
    unfold clientLines
    have hdec : ∀ ch ∈ chunks, '\n' ∉ decodeAscii ch := fun ch hch =>
      noLF_decodeAscii (fun hm => h10 (List.mem_flatten.2 ⟨ch, hch, hm⟩))
    rw [feedClient_eq chunks [] [] (by simp) hdec,
      feedClient_eq [chunks.flatten] [] [] (by simp)
        (by intro ch hch; simp only [List.mem_singleton] at hch; subst hch
            exact noLF_decodeAscii h10),
      feedS_spec '\r' (chunks.map decodeAscii) [] [] (by simp),
      feedS_spec '\r' ([chunks.flatten].map decodeAscii) [] [] (by simp)]
    simp [decodeAscii_flatten]

/-- Witness instantiating the line-feed-free hypothesis of C2 on the chunked
responses Z1 and Z2, each carriage-return terminated, and the device half on
two semicolon-terminated chunks. -/
theorem anthem_C2_witness :
    clientLines [[90, 49, 13], [90, 50, 13]] = clientLines [List.flatten [[90, 49, 13], [90, 50, 13]]] ∧
    deviceLines [[65, 59], [66, 59]] = deviceLines [List.flatten [[65, 59], [66, 59]]] :=
  ⟨anthem_C2.2 [[90, 49, 13], [90, 50, 13]] (by decide),
   anthem_C2.1 [[65, 59], [66, 59]]⟩

end AnthemAV

namespace AnthemAV

/-! ## C6: input discovery -/

theorem digitChar_isDigit (d : Nat) (h : d < 10) : (digitChar d).isDigit = true := by
  revert h
  revert d
  decide

theorem digitChar_toNat (d : Nat) (h : d < 10) : (digitChar d).toNat - 48 = d := by
  revert h
  revert d
  decide

theorem parseDigits_natToChars (n : Nat) (h : n < 100) : parseDigits (natToChars n) = some (n, []) := by
  revert h
  revert n
  decide

theorem enumFrom_length : ∀ (l : List Str) (s : Nat), (enumFrom s l).length = l.length := by
  intro l
  induction l with
  | nil => intro s; rfl
  | cons nm rest ih => intro s; simp [enumFrom, ih]

theorem alookup_enumFrom_ge : ∀ (l : List Str) (s j : Nat), s + l.length ≤ j →
    alookup j (enumFrom s l) = none := by
  intro l
  induction l with
  | nil => intro s j _; rfl
  | cons nm rest ih =>
    intro s j hj
    simp only [List.length_cons] at hj
    have hne : ¬ j = s := by omega
    simp only [enumFrom, alookup, if_neg hne]
    exact ih (s + 1) j (by omega)

theorem enumFrom_snoc : ∀ (l : List Str) (s : Nat) (x : Str),
    enumFrom s (l ++ [x]) = enumFrom s l ++ [(s + l.length, x)] := by
  intro l
  induction l with
  | nil => intro s x; simp [enumFrom]
  | cons nm rest ih =>
    intro s x
    have h : s + 1 + rest.length = s + (rest.length + 1) := by omega
    show (s, nm) :: enumFrom (s + 1) (rest ++ [x])
        = (s, nm) :: (enumFrom (s + 1) rest ++ [(s + (rest.length + 1), x)])
    rw [ih (s + 1) x, h]

theorem range_map_alookup_enumFrom : ∀ (l : List Str) (d : Nat → Str) (s : Nat),
    (List.range l.length).map (fun k => (alookup (k + s) (enumFrom s l)).getD (d k)) = l := by
  intro l
  induction l with
  | nil => intro d s; rfl
  | cons nm rest ih =>
    intro d s
    rw [List.length_cons, List.range_succ_eq_map]
    simp only [List.map_cons, List.map_map, Function.comp, Nat.succ_eq_add_one,
      List.cons.injEq]
    refine ⟨?_, ?_⟩
    · simp [enumFrom, alookup]
    · have hpt : ∀ k : Nat,
          (alookup (k + 1 + s) (enumFrom s (nm :: rest))).getD (d (k + 1)) =
          (alookup (k + (s + 1)) (enumFrom (s + 1) rest)).getD (d (k + 1)) := by
        intro k
        have harg : k + 1 + s = k + (s + 1) := by omega
        have hne : ¬ (k + (s + 1) = s) := by omega
        simp [enumFrom, alookup, harg, hne]
      simp only [Function.comp_def, hpt]
      exact ih (fun k => d (k + 1)) (s + 1)

end AnthemAV

namespace AnthemAV

theorem updateClient_icn (st : ClientState) (n : Nat) (hn : n < 100) :
    updateClient st (icnMsg n) = { st with input_count := n } := by
  simp [updateClient, icnMsg, str, List.isPrefixOf, parseDigits_natToChars n hn]

theorem processDevice_icn (st : DeviceState) (n : Nat) (hn : n < 100) :
    processDevice st (icnMsg n) = ({ st with input_count := n }, []) := by
  simp [processDevice, updateDevice, icnMsg, str, List.isPrefixOf,
    parseDigits_natToChars n hn]

end AnthemAV

namespace AnthemAV

theorem updateClient_isn (st : ClientState) (i : Nat) (hi : i < 100) (nm : Str)
    (hnm : nm ≠ []) (hstrip : pyStrip nm = nm) :
    updateClient st (isnMsg i nm) =
      { st with
        input_names := upsert i nm st.input_names
        input_discovery_complete :=
          if (upsert i nm st.input_names).length ≥ st.input_count then true
          else st.input_discovery_complete } := by
  have hlen : 0 < nm.length := List.length_pos.2 hnm
  by_cases h10 : i < 10
  · have hd2 := digitChar_isDigit i h10
    have hv2 := digitChar_toNat i h10
    simp [updateClient, isnMsg, twoDigits, h10, str, List.isPrefixOf, matchISN,
      hd2, hv2, hstrip, hnm, hlen]
    split <;> simp_all
  · have hdq := digitChar_isDigit (i / 10) (by omega)
    have hdr := digitChar_isDigit (i % 10) (by omega)
    have hvv : ((digitChar (i / 10)).toNat - 48) * 10 + ((digitChar (i % 10)).toNat - 48) = i := by
      rw [digitChar_toNat _ (by omega), digitChar_toNat _ (by omega)]
      omega
    simp [updateClient, isnMsg, twoDigits, h10, str, List.isPrefixOf, matchISN,
      hdq, hdr, hvv, hstrip, hnm, hlen]
    split <;> simp_all

end AnthemAV

namespace AnthemAV

theorem processDevice_isn (st : DeviceState) (i : Nat) (hi : i < 100) (nm : Str)
    (hnm : nm ≠ []) (hstrip : pyStrip nm = nm) :
    processDevice st (isnMsg i nm) =
      ({ st with
         input_names := upsert i nm st.input_names
         input_discovery_complete :=
           if (upsert i nm st.input_names).length ≥ st.input_count then true
           else st.input_discovery_complete },
       if (upsert i nm st.input_names).length ≥ st.input_count then
         st.config_zones.map DevEvent.inputsDiscovered
       else []) := by
  have hlen : 0 < nm.length := List.length_pos.2 hnm
  by_cases h10 : i < 10
  · have hd2 := digitChar_isDigit i h10
    have hv2 := digitChar_toNat i h10
    simp [processDevice, updateDevice, isnMsg, twoDigits, h10, str, List.isPrefixOf,
      matchISN, hd2, hv2, hstrip, hnm, hlen]
    split <;> simp_all
  · have hdq := digitChar_isDigit (i / 10) (by omega)
    have hdr := digitChar_isDigit (i % 10) (by omega)
    have hvv : ((digitChar (i / 10)).toNat - 48) * 10 + ((digitChar (i % 10)).toNat - 48) = i := by
      rw [digitChar_toNat _ (by omega), digitChar_toNat _ (by omega)]
      omega
    simp [processDevice, updateDevice, isnMsg, twoDigits, h10, str, List.isPrefixOf,
      matchISN, hdq, hdr, hvv, hstrip, hnm, hlen]
    split <;> simp_all

end AnthemAV

namespace AnthemAV

theorem clientRun : ∀ (rest done : List Str) (st : ClientState),
    st.input_names = enumFrom 1 done →
    done.length + rest.length < 100 →
    (∀ nm ∈ rest, nm ≠ [] ∧ pyStrip nm = nm) →
    ((isnMsgsFrom (done.length + 1) rest).foldl updateClient st).input_names
        = enumFrom 1 (done ++ rest) ∧
    ((isnMsgsFrom (done.length + 1) rest).foldl updateClient st).input_count
        = st.input_count ∧
    ((isnMsgsFrom (done.length + 1) rest).foldl updateClient st).input_discovery_complete
        = (if st.input_count ≤ done.length + rest.length ∧ rest ≠ [] then true
           else st.input_discovery_complete) := by
  intro rest
  induction rest with
  | nil =>
    intro done st h1 _ _
    simp [isnMsgsFrom, h1]
  | cons nm rest2 ih =>
    intro done st h1 h2 h4
    simp only [List.length_cons] at h2
    have hnm := h4 nm (by simp)
    have hfresh : alookup (done.length + 1) st.input_names = none := by
      rw [h1]
      exact alookup_enumFrom_ge done 1 (done.length + 1) (by omega)
    have hup : upsert (done.length + 1) nm st.input_names = enumFrom 1 (done ++ [nm]) := by
      rw [upsert_fresh nm hfresh, h1, enumFrom_snoc]
      have h5 : 1 + done.length = done.length + 1 := by omega
      rw [h5]
    have hlen2 : (upsert (done.length + 1) nm st.input_names).length = done.length + 1 := by
      rw [hup, enumFrom_length]
      simp
    have hstep := updateClient_isn st (done.length + 1) (by omega) nm hnm.1 hnm.2
    simp only [isnMsgsFrom, List.foldl_cons, hstep]
    have ihh := ih (done ++ [nm])
      { st with
        input_names := upsert (done.length + 1) nm st.input_names
        input_discovery_complete :=
          if (upsert (done.length + 1) nm st.input_names).length ≥ st.input_count then true
          else st.input_discovery_complete }
      (by simpa using hup)
      (by simp only [List.length_append, List.length_singleton]; omega)
      (fun x hx => h4 x (by simp [hx]))
    have harg : (done ++ [nm]).length + 1 = done.length + 1 + 1 := by simp
    rw [harg] at ihh
    refine ⟨?_, ?_, ?_⟩
    · rw [ihh.1]
      simp
    · rw [ihh.2.1]
    · rw [ihh.2.2]
      simp only [List.length_append, List.length_cons, List.length_nil, List.length_singleton]
      by_cases hr : rest2 = []
      · subst hr
        simp only [List.length_nil]
        split_ifs <;> simp_all
      · split_ifs <;> simp_all <;> omega

end AnthemAV

namespace AnthemAV

theorem deviceRunLt : ∀ (rest done : List Str) (st : DeviceState),
    st.input_names = enumFrom 1 done →
    done.length + rest.length < 100 →
    (∀ nm ∈ rest, nm ≠ [] ∧ pyStrip nm = nm) →
    done.length + rest.length < st.input_count →
    (processDeviceAll st (isnMsgsFrom (done.length + 1) rest)).1.input_names
        = enumFrom 1 (done ++ rest) ∧
    (processDeviceAll st (isnMsgsFrom (done.length + 1) rest)).1.input_count
        = st.input_count ∧
    (processDeviceAll st (isnMsgsFrom (done.length + 1) rest)).1.config_zones
        = st.config_zones ∧
    (processDeviceAll st (isnMsgsFrom (done.length + 1) rest)).2 = [] := by
  intro rest
  induction rest with
  | nil =>
    intro done st h1 _ _ _
    simp [isnMsgsFrom, processDeviceAll, h1]
  | cons nm rest2 ih =>
    intro done st h1 h2 h4 hlt
    simp only [List.length_cons] at h2 hlt
    have hnm := h4 nm (by simp)
    have hfresh : alookup (done.length + 1) st.input_names = none := by
      rw [h1]
      exact alookup_enumFrom_ge done 1 (done.length + 1) (by omega)
    have hup : upsert (done.length + 1) nm st.input_names = enumFrom 1 (done ++ [nm]) := by
      rw [upsert_fresh nm hfresh, h1, enumFrom_snoc]
      have h5 : 1 + done.length = done.length + 1 := by omega
      rw [h5]
    have hlen2 : (upsert (done.length + 1) nm st.input_names).length = done.length + 1 := by
      rw [hup, enumFrom_length]
      simp
    have hstep := processDevice_isn st (done.length + 1) (by omega) nm hnm.1 hnm.2
    have hcond : ¬ ((upsert (done.length + 1) nm st.input_names).length ≥ st.input_count) := by
      rw [hlen2]
      omega
    rw [if_neg hcond, if_neg hcond] at hstep
    simp only [isnMsgsFrom, processDeviceAll, hstep]
    have ihh := ih (done ++ [nm])
      { st with input_names := upsert (done.length + 1) nm st.input_names }
      (by simpa using hup)
      (by simp only [List.length_append, List.length_singleton]; omega)
      (fun x hx => h4 x (by simp [hx]))
      (by simp only [List.length_append, List.length_singleton]; omega)
    have harg : (done ++ [nm]).length + 1 = done.length + 1 + 1 := by simp
    rw [harg] at ihh
    refine ⟨?_, ihh.2.1, ihh.2.2.1, ?_⟩
    · rw [ihh.1]
      simp
    · simp [ihh.2.2.2]

theorem deviceRunEq : ∀ (rest done : List Str) (st : DeviceState),
    st.input_names = enumFrom 1 done →
    done.length + rest.length < 100 →
    (∀ nm ∈ rest, nm ≠ [] ∧ pyStrip nm = nm) →
    rest ≠ [] →
    done.length + rest.length = st.input_count →
    (processDeviceAll st (isnMsgsFrom (done.length + 1) rest)).1.input_names
        = enumFrom 1 (done ++ rest) ∧
    (processDeviceAll st (isnMsgsFrom (done.length + 1) rest)).1.input_count
        = st.input_count ∧
    (processDeviceAll st (isnMsgsFrom (done.length + 1) rest)).1.input_discovery_complete
        = true ∧
    (processDeviceAll st (isnMsgsFrom (done.length + 1) rest)).2
        = st.config_zones.map DevEvent.inputsDiscovered := by
  intro rest
  induction rest with
  | nil =>
    intro done st _ _ _ hne _
    exact absurd rfl hne
  | cons nm rest2 ih =>
    intro done st h1 h2 h4 _ heq
    simp only [List.length_cons] at h2 heq
    have hnm := h4 nm (by simp)
    have hfresh : alookup (done.length + 1) st.input_names = none := by
      rw [h1]
      exact alookup_enumFrom_ge done 1 (done.length + 1) (by omega)
    have hup : upsert (done.length + 1) nm st.input_names = enumFrom 1 (done ++ [nm]) := by
      rw [upsert_fresh nm hfresh, h1, enumFrom_snoc]
      have h5 : 1 + done.length = done.length + 1 := by omega
      rw [h5]
    have hlen2 : (upsert (done.length + 1) nm st.input_names).length = done.length + 1 := by
      rw [hup, enumFrom_length]
      simp
    have hstep := processDevice_isn st (done.length + 1) (by omega) nm hnm.1 hnm.2
    by_cases hr2 : rest2 = []
    · subst hr2
      simp only [List.length_nil] at heq
      have hcond : (upsert (done.length + 1) nm st.input_names).length ≥ st.input_count := by
        rw [hlen2]
        omega
      rw [if_pos hcond, if_pos hcond] at hstep
      simp only [isnMsgsFrom, processDeviceAll, hstep]
      exact ⟨hup, trivial, trivial, by simp⟩
    · have hcond : ¬ ((upsert (done.length + 1) nm st.input_names).length ≥ st.input_count) := by
        rw [hlen2]
        have : rest2.length ≠ 0 := fun h0 => hr2 (List.length_eq_zero.1 h0)
        omega
      rw [if_neg hcond, if_neg hcond] at hstep
      simp only [isnMsgsFrom, processDeviceAll, hstep]
      have ihh := ih (done ++ [nm])
        { st with input_names := upsert (done.length + 1) nm st.input_names }
        (by simpa using hup)
        (by simp only [List.length_append, List.length_singleton]; omega)
        (fun x hx => h4 x (by simp [hx]))
        hr2
        (by simp only [List.length_append, List.length_singleton]; omega)
      have harg : (done ++ [nm]).length + 1 = done.length + 1 + 1 := by simp
      rw [harg] at ihh
      refine ⟨?_, ihh.2.1, ihh.2.2.1, ?_⟩
      · rw [ihh.1]
        simp
      · simp [ihh.2.2.2]

end AnthemAV

namespace AnthemAV

/-- C6: after an input-count announcement of the number of names followed by
one input-name response per index in order, the capability table reports that
input count, the input list is exactly the announced names in index order,
and the discovery-complete notification fires exactly once — the device
emits one inputs-discovered event per configured zone when the last name
arrives — and never fires after a proper prefix of the name responses.  The
index format of the wire protocol is two zero-padded digits, so the count is
below one hundred; names are nonempty and already stripped, as produced by
the receiver. -/
theorem anthem_C6 (names : List Str) (zs : List Nat)
    (h1 : 1 ≤ names.length) (h2 : names.length < 100)
    (h3 : ∀ nm ∈ names, nm ≠ [] ∧ pyStrip nm = nm) :
    ((icnMsg names.length :: isnMsgsFrom 1 names).foldl updateClient initClient).input_count
        = names.length ∧
    get_input_list ((icnMsg names.length :: isnMsgsFrom 1 names).foldl updateClient initClient)
        = names ∧
    ((icnMsg names.length :: isnMsgsFrom 1 names).foldl updateClient
        initClient).input_discovery_complete = true ∧
    (processDeviceAll (initDevice zs) (icnMsg names.length :: isnMsgsFrom 1 names)).1.input_count
        = names.length ∧
    (processDeviceAll (initDevice zs) (icnMsg names.length :: isnMsgsFrom 1 names)).2
        = zs.map DevEvent.inputsDiscovered ∧
    (∀ j, j < names.length →
      ((icnMsg names.length :: isnMsgsFrom 1 (names.take j)).foldl updateClient
          initClient).input_discovery_complete = false ∧
      (processDeviceAll (initDevice zs)
          (icnMsg names.length :: isnMsgsFrom 1 (names.take j))).2 = []) := by
  have hnn : names ≠ [] := by
    intro he
    rw [he] at h1
    simp at h1
  have hicnC : updateClient initClient (icnMsg names.length)
      = { initClient with input_count := names.length } := updateClient_icn _ _ h2
  have hicnD : processDevice (initDevice zs) (icnMsg names.length)
      = ({ initDevice zs with input_count := names.length }, []) := processDevice_icn _ _ h2
  have hC := clientRun names [] { initClient with input_count := names.length }
    rfl (by simpa using h2) h3
  simp only [List.length_nil, List.nil_append, Nat.zero_add] at hC
  have hD := deviceRunEq names [] { initDevice zs with input_count := names.length }
    rfl (by simpa using h2) h3 hnn (by simp)
  simp only [List.length_nil, List.nil_append, Nat.zero_add] at hD
  refine ⟨?_, ?_, ?_, ?_, ?_, ?_⟩
  · simp only [List.foldl_cons, hicnC]
    rw [hC.2.1]
  · simp only [List.foldl_cons, hicnC]
    rw [get_input_list, if_neg ?hne]
    case hne =>
      rw [hC.1]
      rcases names with _ | ⟨x, xs⟩
      · exact absurd rfl hnn
      · simp [enumFrom]
    rw [hC.1, hC.2.1]
    exact range_map_alookup_enumFrom names (fun i => str "Input " ++ natToChars (i + 1)) 1
  · simp only [List.foldl_cons, hicnC]
    rw [hC.2.2, if_pos ⟨by simp, hnn⟩]
  · simp only [processDeviceAll, hicnD]
    rw [hD.2.1]
  · simp only [processDeviceAll, hicnD]
    rw [hD.2.2.2]
    simp [initDevice]
  · intro j hj
    have htl : (names.take j).length = j := by
      rw [List.length_take]
      omega
    have hCj := clientRun (names.take j) [] { initClient with input_count := names.length }
      rfl (by simp [htl]; omega) (fun x hx => h3 x (List.take_subset _ _ hx))
    simp only [List.length_nil, Nat.zero_add] at hCj
    have hDj := deviceRunLt (names.take j) [] { initDevice zs with input_count := names.length }
      rfl (by simp [htl]; omega) (fun x hx => h3 x (List.take_subset _ _ hx))
      (by simp [htl]; omega)
    simp only [List.length_nil, Nat.zero_add] at hDj
    constructor
    · simp only [List.foldl_cons, hicnC]
      rw [hCj.2.2, if_neg ?hc]
      case hc =>
        rw [htl]
        rintro ⟨ha, _⟩
        omega
      rfl
    · simp only [processDeviceAll, hicnD]
      rw [hDj.2.2.2]
      simp

end AnthemAV

namespace AnthemAV

/-- Witness instantiating C6 on the specification's example: ICN3 followed by
the names Blu-ray, Apple TV and Game, on a device configured with zone one;
the never-before part instantiated after the second name. -/
theorem anthem_C6_witness :
    get_input_list ((icnMsg 3 :: isnMsgsFrom 1 [str "Blu-ray", str "Apple TV", str "Game"]).foldl
        updateClient initClient) = [str "Blu-ray", str "Apple TV", str "Game"] ∧
    (processDeviceAll (initDevice [1])
        (icnMsg 3 :: isnMsgsFrom 1 [str "Blu-ray", str "Apple TV", str "Game"])).2
      = [DevEvent.inputsDiscovered 1] ∧
    (processDeviceAll (initDevice [1])
        (icnMsg 3 :: isnMsgsFrom 1 ([str "Blu-ray", str "Apple TV", str "Game"].take 2))).2
      = [] := by
  have h := anthem_C6 [str "Blu-ray", str "Apple TV", str "Game"] [1]
    (by decide) (by decide) (by decide)
  exact ⟨h.2.1, h.2.2.2.2.1, (h.2.2.2.2.2 2 (by decide)).2⟩

end AnthemAV
